import Mathlib

/-!
# IP rate-limit middleware (`server/middleware/limit_ip.go`)

A shallow embedding of the limiter: the Lua script run by `SetLimitWithTime`,
the decoding of its reply on the Go side, the default policy
`DefaultCheckOrMark` and the gin handler built by `LimitConfig.LimitWithTime`.

Conventions of the embedding

* Go `int`, `int64` and `time.Duration` values are integers (`Int`); the two
  places where 64-bit wrap-around can be observed (`-resultInt` and
  `time.Duration(expire)*time.Second`) wrap explicitly through `wrapInt64`.
* A Go `error` is `Option GoError`, `none` being `nil`.
* The Redis server is a map from key to counter record, a record being the
  stored integer and the remaining life of the key in milliseconds, the
  resolution at which Redis keeps expiries.  Time advances in milliseconds.
  The command `TTL` reports the remaining life rounded to the nearest second,
  `(ms + 500) / 1000`, so a key within its last half second is alive and
  reported at `0`.
* The script runs as one atomic step on the store.
-/

namespace LimitIP

/-! ## Go values -/

/-- A non-nil Go `error`, identified by the text its `Error()` method returns. -/
structure GoError where
  msg : String
deriving DecidableEq, Repr

namespace GoError

/-- The method `Error()` of an error value. -/
def Error (e : GoError) : String := e.msg

end GoError

namespace errors

/-- Go `errors.New`. -/
def New (text : String) : GoError := ⟨text⟩

end errors

/-- Two's-complement reduction of an integer to the `int64` range. -/
def wrapInt64 (x : Int) : Int := (x + 2 ^ 63) % 2 ^ 64 - 2 ^ 63

/-- Nanoseconds in `time.Second`. -/
def Second : Int := 1000000000

/-- The conversion `int(expiration.Seconds())` of a `time.Duration` given in
nanoseconds: the number of whole seconds, rounded toward zero.  (The Go code
goes through `float64`; the value is exact for every duration that is a
whole number of seconds, which is all the middleware ever passes.) -/
def durationSeconds (expiration : Int) : Int := expiration.tdiv Second

/-! ## The Redis store -/

/-- A counter record of the store: the integer held under the key and the
remaining life of the key in milliseconds, as the command `PTTL` reports it
(negative, `-1`, when the key carries no expiry). -/
structure Record where
  value : Int
  pttl : Int
deriving DecidableEq, Repr

/-- The number the command `TTL` reports for a record: the remaining life
rounded to the nearest second, or the negative mark of a key without expiry. -/
def Record.ttl (r : Record) : Int :=
  if r.pttl < 0 then r.pttl else (r.pttl + 500) / 1000

/-- The store: at most one record per key. -/
abbrev Store := String → Option Record

namespace Store

/-- The store holding no key at all. -/
def empty : Store := fun _ => none

/-- Write (or with `none`, delete) the entry of one key. -/
def set (s : Store) (key : String) (r : Option Record) : Store :=
  fun k => if k = key then r else s k

end Store

/-- What is left of a record once `d` milliseconds have passed: a record
with no expiry stays, an expiring one counts down and is gone once more
time has passed than it had left. -/
def Record.after (d : Nat) (r : Record) : Option Record :=
  if r.pttl < 0 then some r
  else if (d : Int) ≤ r.pttl then some { r with pttl := r.pttl - d }
  else none

/-- Store-driven expiry: the store after `d` milliseconds without any command. -/
def Store.elapse (s : Store) (d : Nat) : Store :=
  fun k => (s k).bind (Record.after d)

namespace Redis

/-- Command `GET key`: the value, or `none` (Lua `false`) when the key is absent. -/
def GET (s : Store) (key : String) : Option Int := (s key).map Record.value

/-- Command `SET key v`: stores the value and drops any expiry of the key. -/
def SET (s : Store) (key : String) (v : Int) : Store :=
  s.set key (some ⟨v, -1⟩)

/-- Command `EXPIRE key seconds`: a non-positive timeout deletes the key,
a positive one becomes its time to live; an absent key is left absent. -/
def EXPIRE (s : Store) (key : String) (seconds : Int) : Store :=
  match s key with
  | none => s
  | some r =>
    if seconds ≤ 0 then s.set key none else s.set key (some ⟨r.value, seconds * 1000⟩)

/-- Command `INCR key`: adds one to the value (an absent key counts as 0),
keeps the expiry, and replies with the new value. -/
def INCR (s : Store) (key : String) : Store × Int :=
  match s key with
  | none => (s.set key (some ⟨1, -1⟩), 1)
  | some r => (s.set key (some ⟨r.value + 1, r.pttl⟩), r.value + 1)

/-- Command `TTL key`: `-2` for an absent key, else the record's time to live
in seconds (`-1` when it has no expiry). -/
def TTL (s : Store) (key : String) : Int :=
  match s key with
  | none => -2
  | some r => r.ttl

end Redis

/-- The Lua script of `SetLimitWithTime`, with `KEYS[1] = key`,
`ARGV[1] = limit`, `ARGV[2] = expiration`: the store it leaves and the
integer it replies with. -/
def luaScript (s : Store) (key : String) (limit expiration : Int) : Store × Int :=
  match Redis.GET s key with
  | none =>
    let s1 := Redis.SET s key 1
    let s2 := Redis.EXPIRE s1 key expiration
    (s2, 1)
  | some current =>
    if current < limit then
      Redis.INCR s key
    else
      let ttl := Redis.TTL s key
      (s, -ttl)

/-- How one round trip to the store goes: the reply arrives, or the client
reports an error `e`, either before the script ran or after it ran. -/
inductive Transport where
  | ok
  | lostRequest (e : GoError)
  | lostReply (e : GoError)
deriving DecidableEq, Repr

/-- The error the client reports for a round trip, if any. -/
def Transport.failure : Transport → Option GoError
  | .ok => none
  | .lostRequest e => some e
  | .lostReply e => some e

/-- The call `global.GVA_REDIS.Eval(ctx, luaScript, []string{key}, limit, seconds).Result()`:
the store afterwards and either the script's reply or the client's error. -/
def Eval (t : Transport) (s : Store) (key : String) (limit seconds : Int) :
    Store × Except GoError Int :=
  match t with
  | .ok => let r := luaScript s key limit seconds; (r.1, .ok r.2)
  | .lostRequest e => (s, .error e)
  | .lostReply e => ((luaScript s key limit seconds).1, .error e)

/-- The function `SetLimitWithTime(key, limit, expiration)` run against the
store `rdb`, the duration `expiration` in nanoseconds.

`durationText ttl` stands for the text of the duration of `ttl` seconds that
the countdown message embeds (the source writes
`time.Duration(ttl)*time.Second.String()`); it comes from the standard
library and is kept abstract. -/
def SetLimitWithTime (durationText : Int → String) (t : Transport) (rdb : Store)
    (key : String) (limit : Int) (expiration : Int) : Option GoError × Store :=
  match Eval t rdb key limit (durationSeconds expiration) with
  | (rdb1, .error err) => (some err, rdb1)
  | (rdb1, .ok resultInt) =>
    if resultInt < 0 then
      let ttl := wrapInt64 (-resultInt)
      if ttl ≤ 0 then
        (some (errors.New "请求太过频繁，请稍后再试"), rdb1)
      else
        (some (errors.New ("请求太过频繁, 请 " ++ durationText ttl ++ " 后尝试")), rdb1)
    else
      (none, rdb1)

/-! ## Process-wide state and the default policy -/

/-- The two settings of `global.GVA_CONFIG.System` the limiter reads. -/
structure System where
  LimitTimeIP : Int
  LimitCountIP : Int
deriving DecidableEq, Repr

/-- The globals the middleware touches: the Redis handle (`none` is the nil
client), the lines written through `GVA_LOG.Error`, and the configuration. -/
structure Global where
  GVA_REDIS : Option Store
  GVA_LOG : List (String × GoError)
  GVA_CONFIG : System

/-- The function `DefaultCheckOrMark(key, expire, limit)`. -/
def DefaultCheckOrMark (durationText : Int → String) (t : Transport)
    (key : String) (expire : Int) (limit : Int) (g : Global) : Option GoError × Global :=
  match g.GVA_REDIS with
  | none => (none, g)
  | some rdb =>
    match SetLimitWithTime durationText t rdb key limit (wrapInt64 (expire * Second)) with
    | (some err, rdb1) =>
      (some err, { g with GVA_REDIS := some rdb1, GVA_LOG := g.GVA_LOG ++ [("limit", err)] })
    | (none, rdb1) => (none, { g with GVA_REDIS := some rdb1 })

/-! ## The gin handler -/

/-- The JSON object `gin.H{"code": ..., "msg": ...}`. -/
structure H where
  code : Int
  msg : String
deriving DecidableEq, Repr

/-- What the handler sees and changes of a `*gin.Context`: the client
address, the responses written so far (status and body) and whether the
chain was aborted. -/
structure Context where
  clientIP : String
  written : List (Nat × H)
  aborted : Bool
deriving DecidableEq, Repr

namespace Context

/-- Method `c.ClientIP()`. -/
def ClientIP (c : Context) : String := c.clientIP

/-- Method `c.JSON(code, obj)`: writes one response. -/
def JSON (c : Context) (code : Nat) (obj : H) : Context :=
  { c with written := c.written ++ [(code, obj)] }

/-- Method `c.Abort()`: no pending handler of the chain will run. -/
def Abort (c : Context) : Context := { c with aborted := true }

end Context

/-- Constant `http.StatusOK`. -/
def StatusOK : Nat := 200

/-- A handler acts on the request context and on the state `σ` outside it. -/
abbrev HandlerFunc (σ : Type) := Context → σ → Context × σ

/-- The struct `LimitConfig`; `CheckOrMark` may read and change the outside
state `σ` (for the default policy, the globals).  `Expire` is the window in
seconds and `Limit` the number of calls let through per window: that is how
the code uses them, though the source comment on `Limit` calls it a period. -/
structure LimitConfig (σ : Type) where
  GenerationKey : Context → String
  CheckOrMark : String → Int → Int → σ → Option GoError × σ
  Expire : Int
  Limit : Int

/-- The method `LimitConfig.LimitWithTime`: the returned handler.

`ERROR` is the constant `response.ERROR` and `Next` what `c.Next()` does
(running the downstream handlers); both belong to other packages and are
parameters. -/
def LimitConfig.LimitWithTime {σ : Type} (l : LimitConfig σ) (ERROR : Int)
    (Next : HandlerFunc σ) : HandlerFunc σ :=
  fun c w =>
    match l.CheckOrMark (l.GenerationKey c) l.Expire l.Limit w with
    | (some err, w1) => (((c.JSON StatusOK ⟨ERROR, err.Error⟩).Abort), w1)
    | (none, w1) => Next c w1

/-- The function `DefaultGenerationKey`. -/
def DefaultGenerationKey (c : Context) : String := "GVA_Limit" ++ c.ClientIP

/-- The function `DefaultLimit`, reading the configuration from the globals `g`. -/
def DefaultLimit (g : Global) (durationText : Int → String) (t : Transport)
    (ERROR : Int) (Next : HandlerFunc Global) : HandlerFunc Global :=
  LimitConfig.LimitWithTime
    { GenerationKey := DefaultGenerationKey
      CheckOrMark := DefaultCheckOrMark durationText t
      Expire := g.GVA_CONFIG.LimitTimeIP
      Limit := g.GVA_CONFIG.LimitCountIP }
    ERROR Next

/-! ## Runs of the limiter -/

/-- The countdown error of `SetLimitWithTime` for a remaining time of `ttl` seconds. -/
def countdownError (durationText : Int → String) (ttl : Int) : GoError :=
  errors.New ("请求太过频繁, 请 " ++ durationText ttl ++ " 后尝试")

/-- The generic error of `SetLimitWithTime`, carrying no countdown. -/
def genericError : GoError := errors.New "请求太过频繁，请稍后再试"

/-- Calls on one key issued one after the other, the store answering each:
before every call the listed number of milliseconds passes.  For each call, the
value returned and the record the store then holds for the key. -/
def session (durationText : Int → String) (key : String) (limit expiration : Int) :
    Store → List Nat → List (Option GoError × Option Record)
  | _, [] => []
  | s, d :: ds =>
    let r := SetLimitWithTime durationText .ok (s.elapse d) key limit expiration
    (r.1, r.2 key) :: session durationText key limit expiration r.2 ds

/-- Calls by several callers racing on one key.  The schedule lists, in the
order in which the store runs their scripts, the caller and the milliseconds
gone since the previous script; each caller gets the value its own call returns. -/
def concurrent (durationText : Int → String) (key : String) (limit expiration : Int) :
    Store → List (Nat × Nat) → List (Nat × Option GoError)
  | _, [] => []
  | s, (caller, d) :: rest =>
    let r := SetLimitWithTime durationText .ok (s.elapse d) key limit expiration
    (caller, r.1) :: concurrent durationText key limit expiration r.2 rest

/-- The store states that calls of `SetLimitWithTime` with one limit and one
window, on any keys and with any fate of the round trip, and the passing of
time can produce from the empty store. -/
inductive Reachable (durationText : Int → String) (limit expiration : Int) : Store → Prop
  | init : Reachable durationText limit expiration Store.empty
  | call (s : Store) (t : Transport) (key : String) :
      Reachable durationText limit expiration s →
      Reachable durationText limit expiration
        (SetLimitWithTime durationText t s key limit expiration).2
  | elapse (s : Store) (d : Nat) :
      Reachable durationText limit expiration s →
      Reachable durationText limit expiration (s.elapse d)

/-- A policy that also keeps a journal of the argument triples its
`CheckOrMark` was evaluated with. -/
def LimitConfig.journaled {σ : Type} (l : LimitConfig σ) :
    LimitConfig (σ × List (String × Int × Int)) :=
  { GenerationKey := l.GenerationKey
    CheckOrMark := fun key expire limit w =>
      let r := l.CheckOrMark key expire limit w.1
      (r.1, (r.2, w.2 ++ [(key, expire, limit)]))
    Expire := l.Expire
    Limit := l.Limit }

/-- What call number `i` (from 0) of a run is expected to give on a record
that held `c` and had `t` milliseconds to live when the run began, the calls
being spaced by `ds`: the returned value and the record afterwards. -/
def expectedCall (durationText : Int → String) (limit c t : Int) (ds : List Nat) (i : Nat) :
    Option GoError × Option Record :=
  let left : Int := t - ((ds.take (i + 1)).sum : Nat)
  (if c + (i : Int) < limit then none
   else some (countdownError durationText ((left + 500) / 1000)),
   some ⟨min (c + (i : Int) + 1) limit, left⟩)

/-! ## One call -/

theorem wrapInt64_of_range (x : Int) (h0 : -2 ^ 63 ≤ x) (h1 : x < 2 ^ 63) : wrapInt64 x = x := by
  unfold wrapInt64
  omega

theorem durationSeconds_seconds (W : Int) : durationSeconds (W * Second) = W := by
  unfold durationSeconds Second
  exact Int.mul_tdiv_cancel W (by decide)

theorem Store.set_set (s : Store) (key : String) (a b : Option Record) :
    (s.set key a).set key b = s.set key b := by
  funext k
  simp only [Store.set]
  split <;> rfl

theorem Store.set_same (s : Store) (key : String) (a : Option Record) : s.set key a key = a := by
  simp [Store.set]

theorem Store.set_other (s : Store) (key k : String) (a : Option Record) (h : k ≠ key) :
    s.set key a k = s k := by
  simp [Store.set, h]

/-- The script on a key without record. -/
theorem luaScript_absent (s : Store) (key : String) (limit secs : Int) (h : s key = none) :
    luaScript s key limit secs
      = (if secs ≤ 0 then s.set key none else s.set key (some ⟨1, secs * 1000⟩), 1) := by
  simp only [luaScript, Redis.GET, h, Option.map_none', Redis.SET, Redis.EXPIRE,
    Store.set_same, Store.set_set]

/-- The script on a record below the limit. -/
theorem luaScript_below (s : Store) (key : String) (limit secs : Int) (r : Record)
    (h : s key = some r) (hlt : r.value < limit) :
    luaScript s key limit secs = (s.set key (some ⟨r.value + 1, r.pttl⟩), r.value + 1) := by
  simp [luaScript, Redis.GET, h, Redis.INCR, hlt]

/-- The script on a record at or above the limit. -/
theorem luaScript_full (s : Store) (key : String) (limit secs : Int) (r : Record)
    (h : s key = some r) (hge : limit ≤ r.value) :
    luaScript s key limit secs = (s, -r.ttl) := by
  simp [luaScript, Redis.GET, h, Redis.TTL, not_lt.mpr hge]

/-- A call on a key without record, the round trip succeeding. -/
theorem SetLimitWithTime_absent (durationText : Int → String) (s : Store) (key : String)
    (limit expiration : Int) (h : s key = none) :
    SetLimitWithTime durationText .ok s key limit expiration
      = (none, if durationSeconds expiration ≤ 0 then s.set key none
               else s.set key (some ⟨1, durationSeconds expiration * 1000⟩)) := by
  simp [SetLimitWithTime, Eval, luaScript_absent s key limit _ h]

/-- A call on a record below the limit, the round trip succeeding. -/
theorem SetLimitWithTime_below (durationText : Int → String) (s : Store) (key : String)
    (limit expiration : Int) (r : Record) (h : s key = some r) (hlt : r.value < limit)
    (h0 : 0 ≤ r.value + 1) :
    SetLimitWithTime durationText .ok s key limit expiration
      = (none, s.set key (some ⟨r.value + 1, r.pttl⟩)) := by
  simp [SetLimitWithTime, Eval, luaScript_below s key limit _ r h hlt, not_lt.mpr h0]

/-- A call on a record at the limit whose time to live is positive. -/
theorem SetLimitWithTime_full (durationText : Int → String) (s : Store) (key : String)
    (limit expiration : Int) (r : Record) (h : s key = some r) (hge : limit ≤ r.value)
    (hpos : 0 < r.ttl) (hmax : r.ttl < 2 ^ 63) :
    SetLimitWithTime durationText .ok s key limit expiration
      = (some (countdownError durationText r.ttl), s) := by
  have hw : wrapInt64 r.ttl = r.ttl := wrapInt64_of_range _ (by omega) hmax
  simp [SetLimitWithTime, Eval, luaScript_full s key limit _ r h hge, hpos, hw, countdownError]

/-- A call on a record at the limit whose time to live is reported as zero or
negative: the reply of the script is not negative and the call returns nil. -/
theorem SetLimitWithTime_full_nonpos (durationText : Int → String) (s : Store) (key : String)
    (limit expiration : Int) (r : Record) (h : s key = some r) (hge : limit ≤ r.value)
    (hnp : r.ttl ≤ 0) :
    SetLimitWithTime durationText .ok s key limit expiration = (none, s) := by
  simp [SetLimitWithTime, Eval, luaScript_full s key limit _ r h hge, hnp]

/-- A failed round trip makes the call return the client's error. -/
theorem SetLimitWithTime_failure (durationText : Int → String) (t : Transport) (s : Store)
    (key : String) (limit expiration : Int) (e : GoError) (h : t.failure = some e) :
    (SetLimitWithTime durationText t s key limit expiration).1 = some e := by
  cases t with
  | ok => simp [Transport.failure] at h
  | lostRequest e1 =>
    simp only [Transport.failure, Option.some.injEq] at h
    simp [SetLimitWithTime, Eval, h]
  | lostReply e1 =>
    simp only [Transport.failure, Option.some.injEq] at h
    simp [SetLimitWithTime, Eval, h]

/-- The store a call leaves is the one the script leaves, or the old one. -/
theorem SetLimitWithTime_store (durationText : Int → String) (t : Transport) (s : Store)
    (key : String) (limit expiration : Int) :
    (SetLimitWithTime durationText t s key limit expiration).2
      = (luaScript s key limit (durationSeconds expiration)).1
    ∨ (SetLimitWithTime durationText t s key limit expiration).2 = s := by
  cases t with
  | ok =>
    left
    simp only [SetLimitWithTime, Eval]
    split_ifs <;> rfl
  | lostRequest e => right; rfl
  | lostReply e => left; rfl

/-- The script touches no key but its own. -/
theorem luaScript_other (s : Store) (key k : String) (limit secs : Int) (hk : k ≠ key) :
    (luaScript s key limit secs).1 k = s k := by
  cases h : s key with
  | none =>
    rw [luaScript_absent s key limit secs h]
    dsimp only
    split_ifs <;> exact Store.set_other s key k _ hk
  | some r =>
    by_cases hlt : r.value < limit
    · rw [luaScript_below s key limit secs r h hlt]
      exact Store.set_other s key k _ hk
    · rw [luaScript_full s key limit secs r h (not_lt.mp hlt)]

/-- A record that outlives `d` milliseconds has counted down by `d`. -/
theorem Store.elapse_alive (s : Store) (key : String) (d : Nat) (c t : Int)
    (h : s key = some ⟨c, t⟩) (hd : (d : Int) ≤ t) :
    s.elapse d key = some ⟨c, t - d⟩ := by
  have : ¬ t < 0 := by omega
  simp [Store.elapse, h, Record.after, this, hd]

/-- What `TTL` reports for a record with an expiry. -/
theorem Record.ttl_of_nonneg (c t : Int) (h : 0 ≤ t) :
    Record.ttl ⟨c, t⟩ = (t + 500) / 1000 := by
  simp [Record.ttl, not_lt.mpr h]

theorem Store.elapse_absent (s : Store) (key : String) (d : Nat) (h : s key = none) :
    s.elapse d key = none := by
  simp [Store.elapse, h]

/-! ## Runs -/

theorem expectedCall_succ (durationText : Int → String) (limit c t : Int) (d : Nat)
    (ds : List Nat) (i : Nat) :
    expectedCall durationText limit c t (d :: ds) (i + 1)
      = expectedCall durationText limit (c + 1) (t - d) ds i := by
  simp only [expectedCall, List.take_succ_cons, List.sum_cons, Nat.cast_add, Nat.cast_succ]
  have e1 : c + 1 + (i : Int) = c + ((i : Int) + 1) := by ring
  have e2 : t - (d : Int) - ((ds.take (i + 1)).sum : Nat)
      = t - ((d : Int) + ((ds.take (i + 1)).sum : Nat)) := by ring
  rw [e1, e2]

theorem expectedCall_succ_full (durationText : Int → String) (limit t : Int) (d : Nat)
    (ds : List Nat) (i : Nat) :
    expectedCall durationText limit limit t (d :: ds) (i + 1)
      = expectedCall durationText limit limit (t - d) ds i := by
  simp only [expectedCall, List.take_succ_cons, List.sum_cons, Nat.cast_add, Nat.cast_succ]
  have e2 : t - (d : Int) - ((ds.take (i + 1)).sum : Nat)
      = t - ((d : Int) + ((ds.take (i + 1)).sum : Nat)) := by ring
  have l1 : ¬ limit + (i : Int) < limit := by omega
  have l2 : ¬ limit + ((i : Int) + 1) < limit := by omega
  have m1 : min (limit + (i : Int) + 1) limit = limit := by omega
  have m2 : min (limit + ((i : Int) + 1) + 1) limit = limit := by omega
  rw [e2, if_neg l1, if_neg l2, m1, m2]

/-- Closed form of a run on a key whose record holds `c ≤ limit` and lives
for `t` more milliseconds, every call coming at least half a second before
the record expires (so that `TTL` reports at least 1): call number `i` is
let through while `c + i < limit` and the record counts up to `limit`. -/
theorem session_counting (durationText : Int → String) (key : String)
    (limit expiration : Int) :
    ∀ (ds : List Nat) (s : Store) (c t : Int), s key = some ⟨c, t⟩ → 0 ≤ c → c ≤ limit →
      (ds.sum : Int) + 500 ≤ t → t < 2 ^ 63 →
      session durationText key limit expiration s ds
        = (List.range ds.length).map (expectedCall durationText limit c t ds) := by
  intro ds
  induction ds with
  | nil => intro s c t _ _ _ _ _; simp [session]
  | cons d ds ih =>
    intro s c t h h0 hle hsum hmax
    simp only [List.sum_cons, Nat.cast_add] at hsum
    have hd : (d : Int) ≤ t := by omega
    have hel := Store.elapse_alive s key d c t h hd
    simp only [List.length_cons, List.range_succ_eq_map, List.map_cons, List.map_map, session]
    by_cases hlt : c < limit
    · have hstep := SetLimitWithTime_below durationText (s.elapse d) key limit expiration
        ⟨c, t - d⟩ hel hlt (by simp; omega)
      rw [hstep]
      have hkey : ((s.elapse d).set key (some ⟨c + 1, t - d⟩)) key = some ⟨c + 1, t - d⟩ :=
        Store.set_same _ _ _
      rw [ih _ (c + 1) (t - d) hkey (by omega) (by omega) (by omega) (by omega)]
      simp only [hkey]
      congr 1
      · simp [expectedCall, hlt, min_eq_left (show c + 1 ≤ limit by omega)]
      · apply List.map_congr_left
        intro i _
        exact (expectedCall_succ durationText limit c t d ds i).symm
    · have hc : c = limit := by omega
      subst hc
      have httl : Record.ttl ⟨c, t - d⟩ = (t - d + 500) / 1000 :=
        Record.ttl_of_nonneg c (t - d) (by omega)
      have hstep := SetLimitWithTime_full durationText (s.elapse d) key c expiration
        ⟨c, t - d⟩ hel (by simp) (by rw [httl]; omega) (by rw [httl]; omega)
      rw [hstep, httl]
      rw [ih _ c (t - d) hel h0 hle (by omega) (by omega)]
      simp only [hel]
      congr 1
      · simp [expectedCall]
      · apply List.map_congr_left
        intro i _
        exact (expectedCall_succ_full durationText c t d ds i).symm

/-- The run that starts on a key without record: the first call creates the
record with a full window, the later ones follow `session_counting`. -/
theorem session_fresh (durationText : Int → String) (key : String) (limit W : Int)
    (s : Store) (d0 : Nat) (ds : List Nat) (hfresh : s key = none) (hlimit : 1 ≤ limit)
    (hdur : W * Second < 2 ^ 63) (hsum : (ds.sum : Int) + 500 ≤ W * 1000) :
    session durationText key limit (W * Second) s (d0 :: ds)
      = (none, some ⟨1, W * 1000⟩)
        :: (List.range ds.length).map (expectedCall durationText limit 1 (W * 1000) ds) := by
  have hW : 0 < W := by omega
  have hmax : W * 1000 < 2 ^ 63 := by
    unfold Second at hdur
    omega
  have h1 := SetLimitWithTime_absent durationText (s.elapse d0) key limit (W * Second)
    (Store.elapse_absent s key d0 hfresh)
  rw [durationSeconds_seconds, if_neg (not_le.mpr hW)] at h1
  have hkey : ((s.elapse d0).set key (some ⟨1, W * 1000⟩)) key = some ⟨1, W * 1000⟩ :=
    Store.set_same _ _ _
  simp only [session]
  rw [h1]
  simp only [hkey]
  rw [session_counting durationText key limit (W * Second) ds _ 1 (W * 1000) hkey (by omega)
    hlimit hsum hmax]

/-- The sequential limit away from the last half second of the window: on a
key without record, with limit `L ≥ 1` and a window of `W` seconds, when
`L + 1` calls are made and every one of them comes at least 500 ms before
the record expires, the first `L` calls return nil and leave the count at
1, 2, ..., `L`, and call number `L + 1` returns the countdown error for the
time to live `TTL` reports, which is at least 1 and at most `W`. -/
theorem sequential_limit_before_last_half_second (durationText : Int → String)
    (key : String) (L W : Nat) (s : Store) (d0 : Nat) (ds : List Nat) (hfresh : s key = none)
    (hL : 1 ≤ L) (hdur : (W : Int) * Second < 2 ^ 63) (hlen : ds.length = L)
    (hsum : ds.sum + 500 ≤ W * 1000) :
    (session durationText key L (W * Second) s (d0 :: ds)).length = L + 1
    ∧ (∀ i, i < L →
        (session durationText key L (W * Second) s (d0 :: ds))[i]?
          = some (none, some ⟨(i : Int) + 1, (W : Int) * 1000 - ((ds.take i).sum : Nat)⟩))
    ∧ (session durationText key L (W * Second) s (d0 :: ds))[L]?
        = some (some (countdownError durationText
                  (((W : Int) * 1000 - (ds.sum : Nat) + 500) / 1000)),
                some ⟨(L : Int), (W : Int) * 1000 - (ds.sum : Nat)⟩)
    ∧ 1 ≤ ((W : Int) * 1000 - (ds.sum : Nat) + 500) / 1000
    ∧ ((W : Int) * 1000 - (ds.sum : Nat) + 500) / 1000 ≤ W := by
  have hsumZ : ((ds.sum : Nat) : Int) + 500 ≤ (W : Int) * 1000 := by exact_mod_cast hsum
  rw [session_fresh durationText key L W s d0 ds hfresh (by exact_mod_cast hL) hdur hsumZ]
  refine ⟨by simp [hlen], ?_, ?_, by omega, by omega⟩
  · intro i hi
    cases i with
    | zero => simp
    | succ j =>
      have hj : j < (List.range ds.length).length := by simp [hlen]; omega
      rw [List.getElem?_cons_succ, List.getElem?_map, List.getElem?_eq_getElem hj]
      have h1 : (1 : Int) + (j : Int) < (L : Int) := by omega
      have h2 : min ((1 : Int) + (j : Int) + 1) (L : Int) = (j : Int) + 1 + 1 := by omega
      simp [expectedCall, h1, h2]
  · obtain ⟨j, rfl⟩ : ∃ j, L = j + 1 := ⟨L - 1, by omega⟩
    have hj : j < (List.range ds.length).length := by simp [hlen]
    rw [List.getElem?_cons_succ, List.getElem?_map, List.getElem?_eq_getElem hj]
    have h1 : ¬ ((1 : Int) + (j : Int) < ((j + 1 : Nat) : Int)) := by push_cast; omega
    have h2 : min ((1 : Int) + (j : Int) + 1) ((j + 1 : Nat) : Int) = ((j + 1 : Nat) : Int) := by
      push_cast; omega
    have h3 : ds.take (j + 1) = ds := List.take_of_length_le (by omega)
    simp only [expectedCall, List.getElem_range, Option.map_some', h1, if_false, h2, h3]

/-- C1 at a concrete run: key without record, limit 1, window of 1 second,
a first call and a second call 600 ms later.  The record is still alive with
400 ms to live, `TTL` reports 0 for it, the script replies 0, and the second
call returns nil like the first, the count staying at 1: the call over the
limit, made before the record expires, is not rejected. -/
theorem sequential_limit_fails_in_last_half_second :
    session (fun _ => "1s") "k" 1 (1 * Second) Store.empty [0, 600]
      = [(none, some ⟨1, 1000⟩), (none, some ⟨1, 400⟩)]
    ∧ Redis.TTL ((Store.empty.set "k" (some ⟨1, 1000⟩)).elapse 600) "k" = 0
    ∧ (luaScript ((Store.empty.set "k" (some ⟨1, 1000⟩)).elapse 600) "k" 1 1).2 = 0 := by
  refine ⟨?_, ?_, ?_⟩
  · have h1 := SetLimitWithTime_absent (fun _ => "1s") (Store.empty.elapse 0) "k" 1
      (1 * Second) rfl
    rw [durationSeconds_seconds, if_neg (by decide)] at h1
    have h2 : (((Store.empty.elapse 0).set "k" (some ⟨1, 1 * 1000⟩)).elapse 600) "k"
        = some ⟨1, 400⟩ := by
      rw [Store.elapse_alive _ "k" 600 1 (1 * 1000) (Store.set_same _ _ _) (by decide)]
      rfl
    have h3 := SetLimitWithTime_full_nonpos (fun _ => "1s") _ "k" 1 (1 * Second) ⟨1, 400⟩ h2
      (by decide) (by decide)
    simp only [session, h1, h3, Store.set_same, h2]
    rfl
  · have h2 : ((Store.empty.set "k" (some ⟨1, 1000⟩)).elapse 600) "k" = some ⟨1, 400⟩ := by
      rw [Store.elapse_alive _ "k" 600 1 1000 (Store.set_same _ _ _) (by decide)]
      rfl
    simp only [Redis.TTL, h2]
    decide
  · have h2 : ((Store.empty.set "k" (some ⟨1, 1000⟩)).elapse 600) "k" = some ⟨1, 400⟩ := by
      rw [Store.elapse_alive _ "k" 600 1 1000 (Store.set_same _ _ _) (by decide)]
      rfl
    rw [luaScript_full _ "k" 1 1 ⟨1, 400⟩ h2 (by decide)]
    decide

/-! ## Racing callers -/

theorem concurrent_callers (durationText : Int → String) (key : String)
    (limit expiration : Int) :
    ∀ (sched : List (Nat × Nat)) (s : Store),
      (concurrent durationText key limit expiration s sched).map Prod.fst
        = sched.map Prod.fst := by
  intro sched
  induction sched with
  | nil => intro s; rfl
  | cons p rest ih =>
    intro s
    obtain ⟨caller, d⟩ := p
    simp only [concurrent, List.map_cons, ih]

theorem concurrent_results (durationText : Int → String) (key : String)
    (limit expiration : Int) :
    ∀ (sched : List (Nat × Nat)) (s : Store),
      (concurrent durationText key limit expiration s sched).map Prod.snd
        = (session durationText key limit expiration s (sched.map Prod.snd)).map Prod.fst := by
  intro sched
  induction sched with
  | nil => intro s; rfl
  | cons p rest ih =>
    intro s
    obtain ⟨caller, d⟩ := p
    simp only [concurrent, session, List.map_cons, ih]

theorem countP_range_lt (n k : Nat) :
    (List.range n).countP (fun i => decide (i < k)) = min n k := by
  induction n with
  | zero => simp
  | succ n ih =>
    rw [List.range_succ, List.countP_append, ih]
    by_cases h : n < k
    · simp [List.countP_cons, h]; omega
    · simp [List.countP_cons, h]; omega

/-- How many calls of a run on a key without record return nil: `limit` of
them, when the run has at least that many calls and all come at least half
a second before the record expires. -/
theorem session_fresh_let_through (durationText : Int → String) (key : String) (L : Nat)
    (W : Int) (s : Store) (d0 : Nat) (ds : List Nat) (hfresh : s key = none) (hL : 1 ≤ L)
    (hdur : W * Second < 2 ^ 63) (hsum : (ds.sum : Int) + 500 ≤ W * 1000)
    (hlen : L ≤ ds.length + 1) :
    ((session durationText key L (W * Second) s (d0 :: ds)).map Prod.fst).countP Option.isNone
      = L := by
  rw [session_fresh durationText key L W s d0 ds hfresh (by exact_mod_cast hL) hdur hsum]
  rw [List.map_cons, List.countP_cons, List.countP_map, List.countP_map]
  have hc : (List.range ds.length).countP
      ((Option.isNone ∘ Prod.fst) ∘ expectedCall durationText L 1 (W * 1000) ds)
      = (List.range ds.length).countP (fun i => decide (i < L - 1)) := by
    apply List.countP_congr
    intro i _
    simp only [Function.comp, expectedCall, decide_eq_true_eq]
    by_cases h : (1 : Int) + (i : Int) < (L : Int)
    · simp only [if_pos h, Option.isNone_none, true_iff]; omega
    · simp only [if_neg h, Option.isNone_some, Bool.false_eq_true, false_iff]; omega
  rw [hc, countP_range_lt]
  simp only [Option.isNone_none, if_true]
  omega

/-- The concurrent limit away from the last half second of the window:
`2 * L` callers race on a key without record, the store running their
scripts one at a time in any order, every script at least 500 ms before the
record expires.  Every caller gets an outcome, exactly `L` of the calls
return nil and exactly `L` return an error. -/
theorem concurrent_limit_before_last_half_second (durationText : Int → String)
    (key : String) (L W : Nat) (s : Store) (sched : List (Nat × Nat)) (hfresh : s key = none)
    (hdur : (W : Int) * Second < 2 ^ 63)
    (hcallers : (sched.map Prod.fst).Perm (List.range (2 * L)))
    (hwindow : ((sched.map Prod.snd).tail).sum + 500 ≤ W * 1000) :
    ((concurrent durationText key L (W * Second) s sched).map Prod.fst).Perm
        (List.range (2 * L))
    ∧ (concurrent durationText key L (W * Second) s sched).countP
        (fun p => p.2.isNone) = L
    ∧ (concurrent durationText key L (W * Second) s sched).countP
        (fun p => p.2.isSome) = L := by
  have hlen : sched.length = 2 * L := by
    have := hcallers.length_eq
    simpa using this
  have hcount : (concurrent durationText key L (W * Second) s sched).length = 2 * L := by
    have := congrArg List.length (concurrent_callers durationText key L (W * Second) sched s)
    simpa [hlen] using this
  have hnone : (concurrent durationText key L (W * Second) s sched).countP
      (fun p => p.2.isNone) = L := by
    have e : (concurrent durationText key L (W * Second) s sched).countP (fun p => p.2.isNone)
        = ((concurrent durationText key L (W * Second) s sched).map Prod.snd).countP
            Option.isNone := by
      rw [List.countP_map]; rfl
    rw [e, concurrent_results]
    cases sched with
    | nil =>
      have : L = 0 := by simpa using hlen
      subst this
      rfl
    | cons p rest =>
      obtain ⟨caller, d0⟩ := p
      simp only [List.length_cons] at hlen
      simp only [List.map_cons, List.tail_cons] at hwindow ⊢
      exact session_fresh_let_through durationText key L W s d0 (rest.map Prod.snd) hfresh
        (by omega) hdur (by exact_mod_cast hwindow) (by simp; omega)
  refine ⟨?_, hnone, ?_⟩
  · rw [concurrent_callers]; exact hcallers
  · have hsplit := List.length_eq_countP_add_countP (p := fun p : Nat × Option GoError => p.2.isNone)
      (concurrent durationText key L (W * Second) s sched)
    have hsome : (concurrent durationText key L (W * Second) s sched).countP
        (fun p => p.2.isSome)
        = (concurrent durationText key L (W * Second) s sched).countP
            (fun a => decide (¬ (a.2.isNone = true))) := by
      apply List.countP_congr
      intro x _
      cases x.2 <;> simp
    rw [hsome]
    omega

/-- C3 at a concrete race: two callers (`L = 1`) on a key without record,
window of 1 second, the script of caller 1 running first and that of caller
0 running 600 ms later, within the window.  `TTL` reports 0 for the record
the second script finds, and both calls return nil: two calls let through
and none rejected, where the limit is 1. -/
theorem concurrent_limit_fails_in_last_half_second :
    concurrent (fun _ => "1s") "k" 1 (1 * Second) Store.empty [(1, 0), (0, 600)]
      = [(1, none), (0, none)]
    ∧ (concurrent (fun _ => "1s") "k" 1 (1 * Second) Store.empty [(1, 0), (0, 600)]).countP
        (fun p => p.2.isNone) = 2
    ∧ (concurrent (fun _ => "1s") "k" 1 (1 * Second) Store.empty [(1, 0), (0, 600)]).countP
        (fun p => p.2.isSome) = 0 := by
  have h1 := SetLimitWithTime_absent (fun _ => "1s") (Store.empty.elapse 0) "k" 1
    (1 * Second) rfl
  rw [durationSeconds_seconds, if_neg (by decide)] at h1
  have h2 : (((Store.empty.elapse 0).set "k" (some ⟨1, 1 * 1000⟩)).elapse 600) "k"
      = some ⟨1, 400⟩ := by
    rw [Store.elapse_alive _ "k" 600 1 (1 * 1000) (Store.set_same _ _ _) (by decide)]
    rfl
  have h3 := SetLimitWithTime_full_nonpos (fun _ => "1s") _ "k" 1 (1 * Second) ⟨1, 400⟩ h2
    (by decide) (by decide)
  have hrun : concurrent (fun _ => "1s") "k" 1 (1 * Second) Store.empty [(1, 0), (0, 600)]
      = [(1, none), (0, none)] := by
    simp only [concurrent, h1, h3]
  rw [hrun]
  exact ⟨rfl, rfl, rfl⟩

/-! ## The limit invariant -/

/-- The records the script leaves hold at least 1 and at most `max limit 1`,
when those it found did. -/
theorem luaScript_bound (s : Store) (key : String) (limit secs : Int)
    (hinv : ∀ k r, s k = some r → 1 ≤ r.value ∧ r.value ≤ max limit 1) :
    ∀ k r, (luaScript s key limit secs).1 k = some r → 1 ≤ r.value ∧ r.value ≤ max limit 1 := by
  intro k r hk
  by_cases hkk : k = key
  · subst hkk
    cases h : s k with
    | none =>
      rw [luaScript_absent s k limit secs h] at hk
      dsimp only at hk
      split_ifs at hk
      · simp [Store.set_same] at hk
      · rw [Store.set_same] at hk
        cases hk
        exact ⟨le_refl _, le_max_right _ _⟩
    | some r0 =>
      have h0 := hinv k r0 h
      by_cases hlt : r0.value < limit
      · rw [luaScript_below s k limit secs r0 h hlt] at hk
        dsimp only at hk
        rw [Store.set_same] at hk
        cases hk
        exact ⟨by dsimp only; omega, by dsimp only; omega⟩
      · rw [luaScript_full s k limit secs r0 h (not_lt.mp hlt)] at hk
        exact hinv k r hk
  · rw [luaScript_other s key k limit secs hkk] at hk
    exact hinv k r hk

/-- The passing of time changes no value. -/
theorem Store.elapse_value (s : Store) (d : Nat) (k : String) (r : Record)
    (h : s.elapse d k = some r) : ∃ r0, s k = some r0 ∧ r0.value = r.value := by
  cases hs : s k with
  | none => simp [Store.elapse, hs] at h
  | some r0 =>
    refine ⟨r0, rfl, ?_⟩
    simp only [Store.elapse, hs, Option.some_bind, Record.after] at h
    split_ifs at h
    · cases h; rfl
    · cases h; rfl

/-- Invariant of the reachable stores: every record holds at least 1 and at
most `max limit 1`. -/
theorem Reachable.bound (durationText : Int → String) (limit expiration : Int) (s : Store)
    (hs : Reachable durationText limit expiration s) :
    ∀ k r, s k = some r → 1 ≤ r.value ∧ r.value ≤ max limit 1 := by
  induction hs with
  | init => intro k r h; simp [Store.empty] at h
  | call s t key _ ih =>
    rcases SetLimitWithTime_store durationText t s key limit expiration with h | h
    · rw [h]; exact luaScript_bound s key limit _ ih
    · rw [h]; exact ih
  | elapse s d _ ih =>
    intro k r h
    obtain ⟨r0, h0, hv⟩ := Store.elapse_value s d k r h
    rw [← hv]
    exact ih k r0 h0

/-- C2 as stated fails: with limit 0 a single call on the empty store
leaves a record holding 1, above the limit. -/
theorem limit_invariant_fails_for_zero_limit :
    ¬ (∀ (limit expiration : Int) (s : Store) (key : String) (r : Record),
        Reachable (fun _ => "1s") limit expiration s → s key = some r → r.value ≤ limit) := by
  intro h
  have hr : Reachable (fun _ => "1s") 0 Second
      (SetLimitWithTime (fun _ => "1s") .ok Store.empty "k" 0 Second).2 :=
    Reachable.call _ _ _ Reachable.init
  have hk : (SetLimitWithTime (fun _ => "1s") .ok Store.empty "k" 0 Second).2 "k"
      = some ⟨1, 1000⟩ := by decide
  have := h 0 Second _ "k" ⟨1, 1000⟩ hr hk
  simp at this

/-- C2 (limit invariant, amended): in every store reachable from the empty
one by calls of `SetLimitWithTime` with one limit and one window and by
expiries, the count of every key is at most the limit when the limit is at
least 1, and at most 1 when the limit is 0 or negative: it never exceeds
`max limit 1`. -/
theorem limit_invariant (durationText : Int → String) (limit expiration : Int) (s : Store)
    (key : String) (r : Record) (hs : Reachable durationText limit expiration s)
    (hr : s key = some r) : r.value ≤ max limit 1 :=
  (Reachable.bound durationText limit expiration s hs key r hr).2

theorem limit_invariant_witness :
    Reachable (fun _ => "1s") 3 Second
      (SetLimitWithTime (fun _ => "1s") .ok Store.empty "k" 3 Second).2
    ∧ (SetLimitWithTime (fun _ => "1s") .ok Store.empty "k" 3 Second).2 "k"
        = some ⟨1, 1000⟩
    ∧ (1 : Int) ≤ max 3 1 :=
  ⟨Reachable.call _ _ _ Reachable.init, by decide,
    limit_invariant (fun _ => "1s") 3 Second
      (SetLimitWithTime (fun _ => "1s") .ok Store.empty "k" 3 Second).2 "k" ⟨1, 1000⟩
      (Reachable.call _ _ _ Reachable.init) (by decide)⟩

/-! ## Rejection at a time to live of zero or below -/

/-- The countdown error and the generic error are different values, whatever
text the duration is rendered as. -/
theorem countdownError_ne_genericError (durationText : Int → String) (ttl : Int) :
    countdownError durationText ttl ≠ genericError := by
  intro h
  have h1 := congrArg (fun e : GoError => e.msg.data) h
  have e1 : ("请求太过频繁, 请 " : String).data
      = ['请', '求', '太', '过', '频', '繁', ',', ' ', '请', ' '] := rfl
  simp only [countdownError, genericError, errors.New] at h1
  rw [String.data_append, String.data_append, e1] at h1
  simp at h1

/-- The branch `ttl <= 0` of `SetLimitWithTime` is dead: unless the script
replies the least `int64`, no call whose round trip succeeds returns the
generic error. -/
theorem genericError_unreachable (durationText : Int → String) (s : Store) (key : String)
    (limit expiration : Int)
    (hmin : -2 ^ 63 < (luaScript s key limit (durationSeconds expiration)).2) :
    (SetLimitWithTime durationText .ok s key limit expiration).1 ≠ some genericError := by
  simp only [SetLimitWithTime, Eval]
  by_cases hneg : (luaScript s key limit (durationSeconds expiration)).2 < 0
  · have hw : wrapInt64 (-(luaScript s key limit (durationSeconds expiration)).2)
        = -(luaScript s key limit (durationSeconds expiration)).2 :=
      wrapInt64_of_range _ (by omega) (by omega)
    have hpos : ¬ (-(luaScript s key limit (durationSeconds expiration)).2 ≤ 0) := by omega
    rw [if_pos hneg]
    simp only [hw, if_neg hpos, Option.some.injEq, ne_eq]
    exact countdownError_ne_genericError durationText _
  · rw [if_neg hneg]
    simp

/-- C4 at concrete records: the key holds 3 with limit 3, and the store
reports a time to live of 0 (the record has 400 ms left), then of -1 (a
record without expiry), then of -2.  The script replies 0 (then 1, then 2),
which the Go side does not read as a rejection: every one of the three
calls returns nil, neither the generic nor the countdown error. -/
theorem SetLimitWithTime_nonpositive_ttl_returns_nil :
    (SetLimitWithTime (fun _ => "1s") .ok (Store.empty.set "k" (some ⟨3, 400⟩)) "k" 3
        (60 * Second)).1 = none
    ∧ (SetLimitWithTime (fun _ => "1s") .ok (Store.empty.set "k" (some ⟨3, -1⟩)) "k" 3
        (60 * Second)).1 = none
    ∧ (SetLimitWithTime (fun _ => "1s") .ok (Store.empty.set "k" (some ⟨3, -2⟩)) "k" 3
        (60 * Second)).1 = none
    ∧ Redis.TTL (Store.empty.set "k" (some ⟨3, 400⟩)) "k" = 0
    ∧ (luaScript (Store.empty.set "k" (some ⟨3, 400⟩)) "k" 3 60).2 = 0 := by
  refine ⟨?_, ?_, ?_, ?_, ?_⟩
  · rw [SetLimitWithTime_full_nonpos _ _ "k" 3 _ ⟨3, 400⟩ (Store.set_same _ _ _) (by decide)
      (by decide)]
  · rw [SetLimitWithTime_full_nonpos _ _ "k" 3 _ ⟨3, -1⟩ (Store.set_same _ _ _) (by decide)
      (by decide)]
  · rw [SetLimitWithTime_full_nonpos _ _ "k" 3 _ ⟨3, -2⟩ (Store.set_same _ _ _) (by decide)
      (by decide)]
  · simp only [Redis.TTL, Store.set_same]
    decide
  · rw [luaScript_full _ "k" 3 60 ⟨3, 400⟩ (Store.set_same _ _ _) (by decide)]
    decide

/-! ## The default policy -/

/-- C5 (store errors are propagated): with a store configured, when the
round trip of `Eval` fails with error `e`, `SetLimitWithTime` returns `e`
and `DefaultCheckOrMark` returns that same `e`, not nil. -/
theorem store_error_propagates (durationText : Int → String) (t : Transport) (g : Global)
    (rdb : Store) (key : String) (expire limit : Int) (e : GoError)
    (hredis : g.GVA_REDIS = some rdb) (hfail : t.failure = some e) :
    (∀ expiration, (SetLimitWithTime durationText t rdb key limit expiration).1 = some e)
    ∧ (DefaultCheckOrMark durationText t key expire limit g).1 = some e := by
  refine ⟨fun expiration =>
    SetLimitWithTime_failure durationText t rdb key limit expiration e hfail, ?_⟩
  have h := SetLimitWithTime_failure durationText t rdb key limit
    (wrapInt64 (expire * Second)) e hfail
  simp only [DefaultCheckOrMark, hredis]
  split
  · next err rdb1 heq =>
      rw [heq] at h
      exact h
  · next rdb1 heq =>
      rw [heq] at h
      cases h

theorem store_error_propagates_witness :
    (⟨some Store.empty, [], ⟨60, 3⟩⟩ : Global).GVA_REDIS = some Store.empty
    ∧ (Transport.lostRequest ⟨"connection refused"⟩).failure = some ⟨"connection refused"⟩
    ∧ (DefaultCheckOrMark (fun _ => "1s") (.lostRequest ⟨"connection refused"⟩) "k" 60 3
        ⟨some Store.empty, [], ⟨60, 3⟩⟩).1 = some ⟨"connection refused"⟩ :=
  ⟨rfl, rfl,
    (store_error_propagates (fun _ => "1s") (.lostRequest ⟨"connection refused"⟩)
      ⟨some Store.empty, [], ⟨60, 3⟩⟩ Store.empty "k" 60 3 ⟨"connection refused"⟩ rfl rfl).2⟩

/-- C6 (fail-open default): with no store configured, `DefaultCheckOrMark`
returns nil for every key, expire and limit, whatever the round trip would
have been, and leaves the globals (store handle and log included) as they
were. -/
theorem fail_open_without_store (durationText : Int → String) (t : Transport) (g : Global)
    (key : String) (expire limit : Int) (hnil : g.GVA_REDIS = none) :
    DefaultCheckOrMark durationText t key expire limit g = (none, g) := by
  simp only [DefaultCheckOrMark, hnil]

theorem fail_open_without_store_witness :
    (⟨none, [], ⟨60, 3⟩⟩ : Global).GVA_REDIS = none
    ∧ DefaultCheckOrMark (fun _ => "1s") .ok "k" 60 3 ⟨none, [], ⟨60, 3⟩⟩
        = (none, ⟨none, [], ⟨60, 3⟩⟩) :=
  ⟨rfl, fail_open_without_store (fun _ => "1s") .ok ⟨none, [], ⟨60, 3⟩⟩ "k" 60 3 rfl⟩

/-! ## Creation, increment, isolation -/

/-- C7 as stated fails: with a window of 0 seconds the call on a key
without record returns nil but leaves no record at all. -/
theorem fresh_creation_fails_for_zero_window :
    ¬ (∀ (W limit : Int) (s : Store) (key : String), s key = none →
        (SetLimitWithTime (fun _ => "1s") .ok s key limit (W * Second)).1 = none
        ∧ ∃ r, (SetLimitWithTime (fun _ => "1s") .ok s key limit (W * Second)).2 key = some r
            ∧ r.value = 1 ∧ r.ttl = W) := by
  intro h
  obtain ⟨r, h1, _⟩ := (h 0 3 Store.empty "k" rfl).2
  have h2 : (SetLimitWithTime (fun _ => "1s") .ok Store.empty "k" 3 (0 * Second)).2 "k"
      = none := by decide
  rw [h2] at h1
  cases h1

/-- C7 (window reset, amended to windows of at least one second): whenever
the store holds no record for the key, a call with any limit and a window of
`W ≥ 1` seconds returns nil and leaves, for that key, the record with count
1 and the full window to live, for which `TTL` reports exactly `W`; every
other key is left alone. -/
theorem fresh_creation (durationText : Int → String) (s : Store) (key : String)
    (limit W : Int) (hW : 1 ≤ W) (hfresh : s key = none) :
    SetLimitWithTime durationText .ok s key limit (W * Second)
      = (none, s.set key (some ⟨1, W * 1000⟩))
    ∧ Redis.TTL (SetLimitWithTime durationText .ok s key limit (W * Second)).2 key = W := by
  have h : SetLimitWithTime durationText .ok s key limit (W * Second)
      = (none, s.set key (some ⟨1, W * 1000⟩)) := by
    rw [SetLimitWithTime_absent durationText s key limit _ hfresh, durationSeconds_seconds,
      if_neg (by omega)]
  refine ⟨h, ?_⟩
  rw [h]
  simp only [Redis.TTL, Store.set_same]
  rw [Record.ttl_of_nonneg 1 (W * 1000) (by omega)]
  omega

theorem fresh_creation_witness :
    (1 : Int) ≤ 60 ∧ Store.empty "k" = none
    ∧ SetLimitWithTime (fun _ => "1s") .ok Store.empty "k" 3 (60 * Second)
        = (none, Store.empty.set "k" (some ⟨1, 60 * 1000⟩)) :=
  ⟨by decide, rfl, (fresh_creation (fun _ => "1s") Store.empty "k" 3 60 (by decide) rfl).1⟩

/-- A record whose time to live has run out is gone, whatever it counted. -/
theorem Store.elapse_expired (s : Store) (key : String) (d : Nat) (c t : Int)
    (h : s key = some ⟨c, t⟩) (h0 : 0 ≤ t) (hd : t < d) :
    s.elapse d key = none := by
  have h1 : ¬ (t < 0) := by omega
  have h2 : ¬ ((d : Int) ≤ t) := by omega
  simp [Store.elapse, h, Record.after, h1, h2]

/-- C8 (increment below the limit): on a record holding a count `c` below
the limit, a call returns nil, sets the count to `c + 1` and leaves the time
to live as it was, to the millisecond. -/
theorem below_limit_increment (durationText : Int → String) (s : Store) (key : String)
    (limit expiration : Int) (c : Nat) (pttl : Int) (hrec : s key = some ⟨c, pttl⟩)
    (hlt : (c : Int) < limit) :
    SetLimitWithTime durationText .ok s key limit expiration
      = (none, s.set key (some ⟨(c : Int) + 1, pttl⟩)) :=
  SetLimitWithTime_below durationText s key limit expiration ⟨c, pttl⟩ hrec hlt
    (by dsimp only; omega)

theorem below_limit_increment_witness :
    (Store.empty.set "k" (some ⟨2, 17000⟩)) "k" = some ⟨((2 : Nat) : Int), 17000⟩
    ∧ (((2 : Nat) : Int) < 3)
    ∧ SetLimitWithTime (fun _ => "1s") .ok (Store.empty.set "k" (some ⟨2, 17000⟩)) "k" 3
        (60 * Second)
        = (none, (Store.empty.set "k" (some ⟨2, 17000⟩)).set "k" (some ⟨((2 : Nat) : Int) + 1, 17000⟩)) :=
  ⟨by decide, by decide,
    below_limit_increment (fun _ => "1s") (Store.empty.set "k" (some ⟨2, 17000⟩)) "k" 3
      (60 * Second) 2 17000 (by decide) (by decide)⟩

/-- The reply of the script and the record it leaves for its key depend on
the store only through the record of that key. -/
theorem luaScript_local (s s' : Store) (key : String) (limit secs : Int)
    (h : s key = s' key) :
    (luaScript s key limit secs).2 = (luaScript s' key limit secs).2
    ∧ (luaScript s key limit secs).1 key = (luaScript s' key limit secs).1 key := by
  cases hs : s key with
  | none =>
    have hs' : s' key = none := by rw [← h]; exact hs
    rw [luaScript_absent s key limit secs hs, luaScript_absent s' key limit secs hs']
    refine ⟨rfl, ?_⟩
    dsimp only
    split_ifs <;> simp [Store.set_same]
  | some r =>
    have hs' : s' key = some r := by rw [← h]; exact hs
    by_cases hlt : r.value < limit
    · rw [luaScript_below s key limit secs r hs hlt, luaScript_below s' key limit secs r hs' hlt]
      exact ⟨rfl, by simp [Store.set_same]⟩
    · rw [luaScript_full s key limit secs r hs (not_lt.mp hlt),
        luaScript_full s' key limit secs r hs' (not_lt.mp hlt)]
      exact ⟨rfl, h⟩

/-- A call leaves every key but its own as it was. -/
theorem SetLimitWithTime_other (durationText : Int → String) (t : Transport) (s : Store)
    (key k : String) (limit expiration : Int) (hk : k ≠ key) :
    (SetLimitWithTime durationText t s key limit expiration).2 k = s k := by
  rcases SetLimitWithTime_store durationText t s key limit expiration with h | h
  · rw [h]; exact luaScript_other s key k limit _ hk
  · rw [h]

/-- What a call returns and the record it leaves for its key depend on the
store only through the record of that key. -/
theorem SetLimitWithTime_local (durationText : Int → String) (t : Transport) (s s' : Store)
    (key : String) (limit expiration : Int) (h : s key = s' key) :
    (SetLimitWithTime durationText t s key limit expiration).1
      = (SetLimitWithTime durationText t s' key limit expiration).1
    ∧ (SetLimitWithTime durationText t s key limit expiration).2 key
      = (SetLimitWithTime durationText t s' key limit expiration).2 key := by
  obtain ⟨hreply, hrec⟩ := luaScript_local s s' key limit (durationSeconds expiration) h
  cases t with
  | ok =>
    simp only [SetLimitWithTime, Eval, hreply]
    split_ifs <;> exact ⟨rfl, hrec⟩
  | lostRequest e => exact ⟨rfl, h⟩
  | lostReply e => exact ⟨rfl, hrec⟩

/-- C9 (key isolation): for distinct keys `k1` and `k2` and any store, a
call on `k1`, with any limit and window and whatever comes of it, leaves
the record of `k2` as it was (present or not, count and time to live); and
on two stores that agree on the record of `k1`, a call on `k1` returns the
same value and leaves the same record for `k1`. -/
theorem key_isolation (durationText : Int → String) (t : Transport) (s s' : Store)
    (k1 k2 : String) (limit expiration : Int) (hne : k1 ≠ k2) :
    (SetLimitWithTime durationText t s k1 limit expiration).2 k2 = s k2
    ∧ (s k1 = s' k1 →
        (SetLimitWithTime durationText t s k1 limit expiration).1
          = (SetLimitWithTime durationText t s' k1 limit expiration).1
        ∧ (SetLimitWithTime durationText t s k1 limit expiration).2 k1
          = (SetLimitWithTime durationText t s' k1 limit expiration).2 k1) :=
  ⟨SetLimitWithTime_other durationText t s k1 k2 limit expiration (Ne.symm hne),
    SetLimitWithTime_local durationText t s s' k1 limit expiration⟩

theorem key_isolation_witness :
    ("a" : String) ≠ "b"
    ∧ (SetLimitWithTime (fun _ => "1s") .ok (Store.empty.set "b" (some ⟨2, 17000⟩)) "a" 3
        (60 * Second)).2 "b" = (Store.empty.set "b" (some ⟨2, 17000⟩)) "b" :=
  ⟨by decide,
    (key_isolation (fun _ => "1s") .ok (Store.empty.set "b" (some ⟨2, 17000⟩)) Store.empty
      "a" "b" 3 (60 * Second) (by decide)).1⟩

/-! ## The middleware adapter -/

/-- C10 (middleware adapter): the handler of `l.LimitWithTime()` evaluates
`l.CheckOrMark(l.GenerationKey(c), l.Expire, l.Limit)` and goes by its
result.  On an error `e` it writes the response with status 200, the
application error code and `e.Error()` as message, aborts, and hands back
the outside state that one evaluation left; this is so whatever the
downstream handlers `Next` are, none of them runs.  On nil it writes
nothing and passes the untouched context, with the state that one
evaluation left, to the downstream handlers.  The journal of the
evaluations of `CheckOrMark` gains exactly one entry,
`(l.GenerationKey c, l.Expire, l.Limit)`, in both cases. -/
theorem LimitWithTime_adapter {σ : Type} (l : LimitConfig σ) (ERROR : Int) (c : Context)
    (w : σ) (journal : List (String × Int × Int)) :
    (∀ (e : GoError) (w1 : σ),
        l.CheckOrMark (l.GenerationKey c) l.Expire l.Limit w = (some e, w1) →
        (∀ Next : HandlerFunc σ,
          l.LimitWithTime ERROR Next c w
            = ({ c with written := c.written ++ [(200, ⟨ERROR, e.Error⟩)], aborted := true },
               w1))
        ∧ (∀ Next : HandlerFunc (σ × List (String × Int × Int)),
          l.journaled.LimitWithTime ERROR Next c (w, journal)
            = ({ c with written := c.written ++ [(200, ⟨ERROR, e.Error⟩)], aborted := true },
               (w1, journal ++ [(l.GenerationKey c, l.Expire, l.Limit)]))))
    ∧ (∀ (w1 : σ),
        l.CheckOrMark (l.GenerationKey c) l.Expire l.Limit w = (none, w1) →
        (∀ Next : HandlerFunc σ, l.LimitWithTime ERROR Next c w = Next c w1)
        ∧ (∀ Next : HandlerFunc (σ × List (String × Int × Int)),
          l.journaled.LimitWithTime ERROR Next c (w, journal)
            = Next c (w1, journal ++ [(l.GenerationKey c, l.Expire, l.Limit)]))) := by
  refine ⟨?_, ?_⟩
  · intro e w1 h
    refine ⟨?_, ?_⟩
    · intro Next
      simp only [LimitConfig.LimitWithTime, h, Context.JSON, Context.Abort, StatusOK]
    · intro Next
      simp only [LimitConfig.LimitWithTime, LimitConfig.journaled, h, Context.JSON,
        Context.Abort, StatusOK]
  · intro w1 h
    refine ⟨?_, ?_⟩
    · intro Next
      simp only [LimitConfig.LimitWithTime, h]
    · intro Next
      simp only [LimitConfig.LimitWithTime, LimitConfig.journaled, h]

end LimitIP
